import Mathlib

/-!
Verification of the one-dimensional vacuum-cleaner reflex agent (`vacuum.py`).

The Python program stores the room as a `dict` from integer position to a
binary dirt flag.  We model such a dictionary as an insertion-ordered
association list `List (Int × Int)` with unique keys (the invariant every
Python dict enjoys): lookup returns the first binding, assignment replaces an
existing binding in place or appends a fresh one at the end, and `len` is the
number of bindings.  Lookup of a missing key is a `KeyError`, modelled with
`Option` / `Except`.

All definitions are transcribed from the source: `get_environment`,
`update_environment` and `is_clean` from class `Environment`;
`agent_function`, `get_actions`, `move_left`, `move_right`, `suck` and the
`run` loop from class `Vacuum_cleaner`; and the module-level `pick_action`.
The bound methods used as dictionary keys in the Python code are modelled by
the enumeration `Act`.
-/

/-- A Python `dict` with `Int` keys and values: insertion-ordered bindings. -/
abbrev Dict := List (Int × Int)

/-- Dictionary lookup `d[k]`, `none` when the key is absent (`KeyError`). -/
def dGet : Dict → Int → Option Int
  | [], _ => none
  | (k, v) :: rest, key => if key = k then some v else dGet rest key

/-- Dictionary lookup as a fallible computation, as Python raises `KeyError`. -/
def dGetE (d : Dict) (key : Int) : Except String Int :=
  match dGet d key with
  | some v => Except.ok v
  | none => Except.error "KeyError"

/-- Dictionary assignment `d[k] = v`: replaces an existing binding in place,
otherwise appends the new binding (Python dicts preserve insertion order). -/
def dSet : Dict → Int → Int → Dict
  | [], key, val => [(key, val)]
  | (k, v) :: rest, key, val =>
    if key = k then (k, val) :: rest else (k, v) :: dSet rest key val

/-- The initial grid of the spec: keys form the dense range `[0, N)` in
insertion order, for `N` the number of bindings. -/
def denseGrid (d : Dict) : Prop :=
  d.map Prod.fst = (List.range d.length).map Int.ofNat

/-- The percept returned by `Environment.get_environment`:
`{'Left': left, 'Right': right, 'Centre': centre}`. -/
structure Percept where
  left : Option Int
  right : Option Int
  centre : Int
deriving DecidableEq, Repr

/-- The three bound methods of `Vacuum_cleaner` that occur as candidate
actions (`self.move_left`, `self.move_right`, `self.suck`). -/
inductive Act where
  | move_left
  | move_right
  | suck
deriving DecidableEq, Repr

/-- `Environment.get_environment`.  The Python body reads, in order:
`left = self.environment[state - 1] if state - 1 > 0 else None`,
`right = self.environment[state + 1] if state + 1 < len(self.environment)
else None`, `centre = self.environment[state]`; each subscript can raise
`KeyError`, which propagates in that order. -/
def get_environment (d : Dict) (state : Int) : Except String Percept :=
  match (if state - 1 > 0 then Except.map some (dGetE d (state - 1)) else Except.ok none) with
  | Except.error e => Except.error e
  | Except.ok left =>
    match (if state + 1 < (d.length : Int) then Except.map some (dGetE d (state + 1)) else Except.ok none) with
    | Except.error e => Except.error e
    | Except.ok right =>
      match dGetE d state with
      | Except.error e => Except.error e
      | Except.ok centre => Except.ok { left := left, right := right, centre := centre }

/-- `Environment.update_environment`: `self.environment[state] = 0`.  A dict
assignment never fails; on a missing key it inserts a new binding. -/
def update_environment (d : Dict) (state : Int) : Dict :=
  dSet d state 0

/-- `Environment.is_clean`: iterate over the keys, return `False` on the
first key whose looked-up flag equals 1, `True` otherwise. -/
def is_clean (d : Dict) : Bool :=
  d.all (fun kv => dGet d kv.1 != some 1)

/-- The rule set built by `Vacuum_cleaner.agent_function`:
`{'Move left?': _, 'Move right?': _, 'Suck?': _}`. -/
structure Rule where
  move_left_q : Bool
  move_right_q : Bool
  suck_q : Bool
deriving DecidableEq, Repr

/-- The state of a `Vacuum_cleaner` object: the inherited `environment`
dictionary plus `state`, `previous_state`, `cost` and `performance`. -/
structure Vacuum_cleaner where
  environment : Dict
  state : Int
  previous_state : Int
  cost : Int
  performance : Int
deriving DecidableEq, Repr

/-- The `Vacuum_cleaner` constructor: `state = INITIAL_STATE = 0`,
`previous_state = 0`, `cost = 0`, `performance = 0`. -/
def Vacuum_cleaner.init (environment : Dict) : Vacuum_cleaner :=
  { environment := environment, state := 0, previous_state := 0, cost := 0, performance := 0 }

/-- `Vacuum_cleaner.get_actions`: each rule that holds contributes one
candidate with value `performance - cost`; insertion order of the candidate
dict is `move_left, move_right, suck`. -/
def get_actions (rule : Rule) : List (Act × Int) :=
  (if rule.move_left_q then
    let cost : Int := 1
    let performance : Int := -1
    [(Act.move_left, performance - cost)]
  else []) ++
  (if rule.move_right_q then
    let cost : Int := 1
    let performance : Int := -1
    [(Act.move_right, performance - cost)]
  else []) ++
  (if rule.suck_q then
    let cost : Int := 1
    let performance : Int := 1
    [(Act.suck, performance - cost)]
  else [])

/-- `Vacuum_cleaner.agent_function`: build the rule dict from the percept
(`Move left?` iff `Left` is not `None`, `Move right?` iff `Right` is not
`None`, `Suck?` iff `Centre == 1`) and hand it to `get_actions`. -/
def agent_function (percept : Percept) : List (Act × Int) :=
  let rule : Rule :=
    { move_left_q := percept.left.isSome
      move_right_q := percept.right.isSome
      suck_q := percept.centre == 1 }
  get_actions rule

/-- `Vacuum_cleaner.move_left`: record `previous_state`, pay cost 1 and
performance −1, step `state` down by one.  No bounds re-check. -/
def move_left (v : Vacuum_cleaner) : Vacuum_cleaner :=
  { v with
    previous_state := v.state
    cost := v.cost + 1
    performance := v.performance - 1
    state := v.state - 1 }

/-- `Vacuum_cleaner.move_right`: record `previous_state`, pay cost 1 and
performance −1, step `state` up by one. -/
def move_right (v : Vacuum_cleaner) : Vacuum_cleaner :=
  { v with
    previous_state := v.state
    cost := v.cost + 1
    performance := v.performance - 1
    state := v.state + 1 }

/-- `Vacuum_cleaner.suck`: pay cost 1, decrement `performance` by 1
(the source's `self.performance -= 1`), leave `state` unchanged
(`self.state = self.state`) and clean the current cell. -/
def suck (v : Vacuum_cleaner) : Vacuum_cleaner :=
  { v with
    cost := v.cost + 1
    performance := v.performance - 1
    environment := update_environment v.environment v.state }

/-- Dispatch of the selected bound method (`action()` in the run loop). -/
def run_action : Act → Vacuum_cleaner → Vacuum_cleaner
  | Act.move_left, v => move_left v
  | Act.move_right, v => move_right v
  | Act.suck, v => suck v

/-- The scan of `pick_action`: `action_to_pick` starts as `None`, a candidate
is adopted when no pick exists yet and it differs from `avoid`, and replaces
the current pick when its value is strictly greater and it differs from
`avoid`. -/
def pick_go (avoid : Option Act) : List (Act × Int) → Option (Act × Int) → Option (Act × Int)
  | [], best => best
  | (a, s) :: rest, none =>
    if some a ≠ avoid then pick_go avoid rest (some (a, s))
    else pick_go avoid rest none
  | (a, s) :: rest, some (b, t) =>
    if s > t ∧ some a ≠ avoid then pick_go avoid rest (some (a, s))
    else pick_go avoid rest (some (b, t))

/-- Module-level `pick_action(actions, avoid=None)`: scan the candidate dict
in iteration order and return the picked action, `None` when nothing was
picked. -/
def pick_action (actions : List (Act × Int)) (avoid : Option Act) : Option Act :=
  Option.map Prod.fst (pick_go avoid actions none)

/-- The avoidance target computed in `Vacuum_cleaner.run` when more than one
candidate exists: avoid `move_left` after arriving from the left, avoid
`move_right` after arriving from the right. -/
def avoid_action (v : Vacuum_cleaner) : Option Act :=
  if v.previous_state = v.state - 1 then some Act.move_left
  else if v.previous_state = v.state + 1 then some Act.move_right
  else none

/-- The selection step of `Vacuum_cleaner.run`: with more than one candidate
`pick_action(actions, avoid)` is called, otherwise `pick_action(actions)`
with the default `avoid=None`. -/
def select_action (v : Vacuum_cleaner) (actions : List (Act × Int)) : Option Act :=
  if actions.length > 1 then pick_action actions (avoid_action v)
  else pick_action actions none

/-- Outcome of one iteration of the `while` loop in `Vacuum_cleaner.run`. -/
inductive TickResult where
  | finished (cost : Int)
  | next (v : Vacuum_cleaner)
  | error (msg : String)
deriving DecidableEq, Repr

/-- One iteration of `Vacuum_cleaner.run`: if the grid `is_clean`, report the
total cost and stop; otherwise sense, derive candidates, select (with
avoidance when more than one candidate) and execute.  A `KeyError` raised by
sensing propagates, and calling the `None` returned by `pick_action` on an
empty candidate dict raises `TypeError`. -/
def tick (v : Vacuum_cleaner) : TickResult :=
  if is_clean v.environment then TickResult.finished v.cost
  else
    match get_environment v.environment v.state with
    | Except.error e => TickResult.error e
    | Except.ok percept =>
      match select_action v (agent_function percept) with
      | none => TickResult.error "TypeError"
      | some a => TickResult.next (run_action a v)

/-- Run at most `n` iterations of the loop: `next v` means the loop is still
running in configuration `v` after `n` iterations. -/
def run_n : Nat → Vacuum_cleaner → TickResult
  | 0, v => TickResult.next v
  | n + 1, v =>
    match tick v with
    | TickResult.next v2 => run_n n v2
    | r => r

/-! ## Dictionary lemmas -/

/-- Assignment leaves every other key's binding unchanged. -/
theorem dGet_dSet_ne (d : Dict) (key val k : Int) (h : k ≠ key) :
    dGet (dSet d key val) k = dGet d k := by
  induction d with
  | nil => simp [dSet, dGet, h]
  | cons q rest ih =>
    obtain ⟨a, b⟩ := q
    by_cases hka : key = a
    · subst hka
      simp [dSet, dGet, h]
    · simp only [dSet, if_neg hka]
      by_cases hk : k = a
      · simp [dGet, hk]
      · simp [dGet, hk, ih]

/-- Lookup of a key bound nowhere in the dictionary yields `none`. -/
theorem dGet_eq_none_of_not_key (d : Dict) (k : Int) (h : ∀ p ∈ d, p.1 ≠ k) :
    dGet d k = none := by
  induction d with
  | nil => rfl
  | cons q rest ih =>
    obtain ⟨a, b⟩ := q
    have ha : a ≠ k := h (a, b) (by simp)
    have hk : ¬ (k = a) := fun hk => ha hk.symm
    simp only [dGet, if_neg hk]
    exact ih (fun p hp => h p (List.mem_cons_of_mem _ hp))

/-- Assigning a fresh key appends its binding at the end. -/
theorem dSet_append_of_not_key (d : Dict) (k v : Int) (h : ∀ p ∈ d, p.1 ≠ k) :
    dSet d k v = d ++ [(k, v)] := by
  induction d with
  | nil => rfl
  | cons q rest ih =>
    obtain ⟨a, b⟩ := q
    have ha : a ≠ k := h (a, b) (by simp)
    have hk : ¬ (k = a) := fun hk => ha hk.symm
    simp only [dSet, if_neg hk, List.cons_append, List.cons.injEq, true_and]
    exact ih (fun p hp => h p (List.mem_cons_of_mem _ hp))

/-- In a dense grid every key lies in `[0, N)`. -/
theorem denseGrid_key_bounds (d : Dict) (hd : denseGrid d) :
    ∀ p ∈ d, 0 ≤ p.1 ∧ p.1 < (d.length : Int) := by
  intro p hp
  have h1 : p.1 ∈ d.map Prod.fst := List.mem_map_of_mem _ hp
  rw [hd] at h1
  obtain ⟨i, hi, hip⟩ := List.mem_map.mp h1
  rw [List.mem_range] at hi
  have hip2 : (i : Int) = p.1 := hip
  rw [← hip2]
  constructor <;> omega

/-- When the centre subscript has no binding, sensing raises a `KeyError`
(whichever of the three subscripts fails first). -/
theorem get_environment_error_of_centre_none (d : Dict) (p : Int) (h : dGet d p = none) :
    ∃ e, get_environment d p = Except.error e := by
  cases hL : (if p - 1 > 0 then Except.map some (dGetE d (p - 1)) else Except.ok none) with
  | error e => exact ⟨e, by unfold get_environment; rw [hL]⟩
  | ok left =>
    cases hR : (if p + 1 < (d.length : Int) then Except.map some (dGetE d (p + 1)) else Except.ok none) with
    | error e => exact ⟨e, by unfold get_environment; rw [hL, hR]⟩
    | ok right =>
      exact ⟨"KeyError", by unfold get_environment; rw [hL, hR]; simp [dGetE, h]⟩

/-! ## Selection lemmas -/

/-- Once the scan holds a pick, it never returns to `none`. -/
theorem pick_go_isSome_of_some (avoid : Option Act) (l : List (Act × Int)) (b : Act × Int) :
    (pick_go avoid l (some b)).isSome := by
  induction l generalizing b with
  | nil => rfl
  | cons q rest ih =>
    obtain ⟨a, s⟩ := q
    obtain ⟨b1, t⟩ := b
    simp only [pick_go]
    split
    · exact ih _
    · exact ih _

/-- If some candidate differs from the avoided action, `pick_action` picks
something. -/
theorem pick_action_isSome (l : List (Act × Int)) (avoid : Option Act)
    (h : ∃ p ∈ l, some p.1 ≠ avoid) : (pick_action l avoid).isSome := by
  induction l with
  | nil => simp at h
  | cons q rest ih =>
    obtain ⟨a, s⟩ := q
    by_cases ha : some a ≠ avoid
    · unfold pick_action
      simp only [pick_go, if_pos ha]
      have hs := pick_go_isSome_of_some avoid rest (a, s)
      obtain ⟨r, hr⟩ := Option.isSome_iff_exists.mp hs
      simp [hr]
    · have hrest : ∃ p ∈ rest, some p.1 ≠ avoid := by
        obtain ⟨p, hp, hpv⟩ := h
        rcases List.mem_cons.mp hp with rfl | hmem
        · exact absurd hpv ha
        · exact ⟨p, hmem, hpv⟩
      unfold pick_action
      simp only [pick_go, if_neg ha]
      exact ih hrest

/-- Characterisation of the scan started from an existing pick `(b, t)`:
either the pick survives (no non-avoided candidate strictly beats `t`), or
the result is the first non-avoided candidate that strictly beats every
earlier non-avoided value and at least ties every later one. -/
theorem pick_go_some_spec (avoid : Option Act) (l : List (Act × Int)) :
    ∀ (b : Act) (t : Int) (a : Act) (s : Int),
      pick_go avoid l (some (b, t)) = some (a, s) →
      (a = b ∧ s = t ∧ ∀ p ∈ l, some p.1 ≠ avoid → p.2 ≤ t) ∨
      (∃ l₁ l₂, l = l₁ ++ (a, s) :: l₂ ∧ some a ≠ avoid ∧ t < s ∧
        (∀ p ∈ l₁, some p.1 ≠ avoid → p.2 < s) ∧
        (∀ p ∈ l₂, some p.1 ≠ avoid → p.2 ≤ s)) := by
  induction l with
  | nil =>
    intro b t a s h
    simp only [pick_go, Option.some.injEq, Prod.mk.injEq] at h
    left
    exact ⟨h.1.symm, h.2.symm, by simp⟩
  | cons q rest ih =>
    intro b t a s h
    obtain ⟨c, u⟩ := q
    simp only [pick_go] at h
    by_cases hc : u > t ∧ some c ≠ avoid
    · rw [if_pos hc] at h
      rcases ih c u a s h with ⟨ha, hs, hrest⟩ | ⟨l₁, l₂, heq, hna, hus, hpre, hsuf⟩
      · subst ha; subst hs
        right
        exact ⟨[], rest, rfl, hc.2, hc.1, by simp, hrest⟩
      · right
        refine ⟨(c, u) :: l₁, l₂, by rw [heq, List.cons_append], hna, by omega, ?_, hsuf⟩
        intro p hp hpv
        rcases List.mem_cons.mp hp with rfl | hp2
        · exact hus
        · exact hpre p hp2 hpv
    · rw [if_neg hc] at h
      rcases ih b t a s h with ⟨ha, hs, hrest⟩ | ⟨l₁, l₂, heq, hna, hts, hpre, hsuf⟩
      · left
        refine ⟨ha, hs, ?_⟩
        intro p hp hpv
        rcases List.mem_cons.mp hp with rfl | hp2
        · have : ¬ u > t := fun hgt => hc ⟨hgt, hpv⟩
          omega
        · exact hrest p hp2 hpv
      · right
        refine ⟨(c, u) :: l₁, l₂, by rw [heq, List.cons_append], hna, hts, ?_, hsuf⟩
        intro p hp hpv
        rcases List.mem_cons.mp hp with rfl | hp2
        · have : ¬ u > t := fun hgt => hc ⟨hgt, hpv⟩
          omega
        · exact hpre p hp2 hpv

/-- Characterisation of the full scan: the picked candidate is not avoided,
strictly beats every earlier non-avoided value (so the first seen wins ties)
and at least ties every later non-avoided value. -/
theorem pick_go_none_spec (avoid : Option Act) (l : List (Act × Int)) :
    ∀ (a : Act) (s : Int),
      pick_go avoid l none = some (a, s) →
      ∃ l₁ l₂, l = l₁ ++ (a, s) :: l₂ ∧ some a ≠ avoid ∧
        (∀ p ∈ l₁, some p.1 ≠ avoid → p.2 < s) ∧
        (∀ p ∈ l₂, some p.1 ≠ avoid → p.2 ≤ s) := by
  induction l with
  | nil =>
    intro a s h
    simp [pick_go] at h
  | cons q rest ih =>
    intro a s h
    obtain ⟨c, u⟩ := q
    simp only [pick_go] at h
    by_cases hc : some c ≠ avoid
    · rw [if_pos hc] at h
      rcases pick_go_some_spec avoid rest c u a s h with ⟨ha, hs, hrest⟩ | ⟨l₁, l₂, heq, hna, hus, hpre, hsuf⟩
      · subst ha; subst hs
        exact ⟨[], rest, rfl, hc, by simp, hrest⟩
      · refine ⟨(c, u) :: l₁, l₂, by rw [heq, List.cons_append], hna, ?_, hsuf⟩
        intro p hp hpv
        rcases List.mem_cons.mp hp with rfl | hp2
        · exact hus
        · exact hpre p hp2 hpv
    · rw [if_neg hc] at h
      obtain ⟨l₁, l₂, heq, hna, hpre, hsuf⟩ := ih a s h
      refine ⟨(c, u) :: l₁, l₂, by rw [heq, List.cons_append], hna, ?_, hsuf⟩
      intro p hp hpv
      rcases List.mem_cons.mp hp with rfl | hp2
      · exact absurd hpv hc
      · exact hpre p hp2 hpv

/-! ## The oscillation run -/

/-- The oscillation scenario: grid `{0:1, 1:0, 2:1}`, agent placed at
position 1 (`previous_state` 0 as in the constructor). -/
def osc_start : Vacuum_cleaner :=
  { environment := [(0, 1), (1, 0), (2, 1)], state := 1, previous_state := 0, cost := 0, performance := 0 }

/-- The left configuration of the bounce: cell 0 still dirty, agent at 1
having just arrived from 2, with arbitrary counter values. -/
def bounceA (c p : Int) : Vacuum_cleaner :=
  { environment := [(0, 1), (1, 0), (2, 0)], state := 1, previous_state := 2, cost := c, performance := p }

/-- The right configuration of the bounce: cell 0 still dirty, agent at 2
having just arrived from 1, with arbitrary counter values. -/
def bounceB (c p : Int) : Vacuum_cleaner :=
  { environment := [(0, 1), (1, 0), (2, 0)], state := 2, previous_state := 1, cost := c, performance := p }

/-- From `bounceA` the only candidate is `move_right` (the left neighbour is
rejected because `state - 1 > 0` fails at state 1), so the tick moves right. -/
theorem tick_bounceA (c p : Int) : tick (bounceA c p) = TickResult.next (bounceB (c + 1) (p - 1)) := rfl

/-- From `bounceB` the only candidate is `move_left` (the grid ends at 2 and
cell 2 is clean), so the tick moves left. -/
theorem tick_bounceB (c p : Int) : tick (bounceB c p) = TickResult.next (bounceA (c + 1) (p - 1)) := rfl

/-- Unfolding of the bounded run on a tick that continues. -/
theorem run_n_next (n : Nat) (v v2 : Vacuum_cleaner) (h : tick v = TickResult.next v2) :
    run_n (n + 1) v = run_n n v2 := by
  simp [run_n, h]

/-- Any number of ticks from a bounce configuration lands in a bounce
configuration again: the agent shuttles between cells 1 and 2 forever. -/
theorem bounce_cycle (n : Nat) :
    (∀ c p : Int, ∃ c2 p2 : Int,
      run_n n (bounceA c p) = TickResult.next (bounceA c2 p2) ∨
      run_n n (bounceA c p) = TickResult.next (bounceB c2 p2)) ∧
    (∀ c p : Int, ∃ c2 p2 : Int,
      run_n n (bounceB c p) = TickResult.next (bounceA c2 p2) ∨
      run_n n (bounceB c p) = TickResult.next (bounceB c2 p2)) := by
  induction n with
  | zero => exact ⟨fun c p => ⟨c, p, Or.inl rfl⟩, fun c p => ⟨c, p, Or.inr rfl⟩⟩
  | succ n ih =>
    constructor
    · intro c p
      rw [run_n_next n _ _ (tick_bounceA c p)]
      exact ih.2 (c + 1) (p - 1)
    · intro c p
      rw [run_n_next n _ _ (tick_bounceB c p)]
      exact ih.1 (c + 1) (p - 1)

/-! ## Claim theorems -/

/-- Claim C1: refuted on the code.  On grid `{0:1, 1:0, 2:1}` starting at
position 1, the run loop never reaches the finished state: after three ticks
(move right, suck cell 2, move left) it enters the two-cell bounce between
positions 1 and 2 while cell 0 stays dirty, because `state - 1 > 0` never
offers `move_left` from position 1.  For every tick budget `n` the loop is
still running. -/
theorem run_oscillation_never_finishes :
    ∀ n : Nat, ∃ v : Vacuum_cleaner, run_n n osc_start = TickResult.next v := by
  intro n
  match n with
  | 0 => exact ⟨osc_start, rfl⟩
  | 1 => exact ⟨_, rfl⟩
  | 2 => exact ⟨_, rfl⟩
  | (m + 3) =>
    have t0 : tick osc_start = TickResult.next
        ⟨[(0, 1), (1, 0), (2, 1)], 2, 1, 1, -1⟩ := rfl
    have t1 : tick ⟨[(0, 1), (1, 0), (2, 1)], 2, 1, 1, -1⟩ = TickResult.next
        ⟨[(0, 1), (1, 0), (2, 0)], 2, 1, 2, -2⟩ := rfl
    have t2 : tick ⟨[(0, 1), (1, 0), (2, 0)], 2, 1, 2, -2⟩ = TickResult.next (bounceA 3 (-3)) := rfl
    have h3 : run_n (m + 3) osc_start = run_n m (bounceA 3 (-3)) := by
      rw [run_n_next _ _ _ t0, run_n_next _ _ _ t1, run_n_next _ _ _ t2]
    obtain ⟨c2, p2, h | h⟩ := (bounce_cycle m).1 3 (-3)
    · exact ⟨_, by rw [h3, h]⟩
    · exact ⟨_, by rw [h3, h]⟩

/-- Claim C2: refuted on the code.  On grid `{0:1, 1:0}` the percept at
position 1 has `left = None` although cell 0 exists (and is dirty), because
the boundary test reads `state - 1 > 0` instead of `state - 1 >= 0`. -/
theorem get_environment_left_off_by_one :
    get_environment [(0, 1), (1, 0)] 1 = Except.ok { left := none, right := none, centre := 0 } ∧
    dGet [(0, 1), (1, 0)] 0 = some 1 := ⟨rfl, rfl⟩

/-- Claim C3: refuted on the code.  Grid `{0:1, 1:0}` is not fully clean,
yet at position 1 the derived percept yields an empty candidate set: the
off-by-one boundary test forbids `move_left`, position 1 is the right edge,
and cell 1 is clean. -/
theorem dirty_grid_empty_actions :
    is_clean [(0, 1), (1, 0)] = false ∧
    get_environment [(0, 1), (1, 0)] 1 = Except.ok { left := none, right := none, centre := 0 } ∧
    agent_function { left := none, right := none, centre := 0 } = [] := ⟨rfl, rfl, rfl⟩

/-- Claim C4: refuted on the code at tick 2.  On grid `{0:0, 1:0, 2:1}` from
position 0, after the first tick the agent sits at 1; the tick-2 percept is
`{left: None, right: 1, centre: 0}` — not `{left: 0, ...}` as claimed — and
the candidate set is just `move_right`, with no `move_left` candidate and no
avoidance filtering.  The overall outcome (halt after 4 ticks with total
cost 3) happens to coincide with the claim. -/
theorem scenario_tick2_percept_differs :
    run_n 1 (Vacuum_cleaner.init [(0, 0), (1, 0), (2, 1)]) = TickResult.next
      { environment := [(0, 0), (1, 0), (2, 1)], state := 1, previous_state := 0, cost := 1, performance := -1 } ∧
    get_environment [(0, 0), (1, 0), (2, 1)] 1 = Except.ok { left := none, right := some 1, centre := 0 } ∧
    agent_function { left := none, right := some 1, centre := 0 } = [(Act.move_right, -2)] ∧
    run_n 4 (Vacuum_cleaner.init [(0, 0), (1, 0), (2, 1)]) = TickResult.finished 3 :=
  ⟨rfl, rfl, rfl, rfl⟩

/-- Claim C5: when the grid is not fully clean, sensing succeeds, and rule
evaluation yields an empty candidate set, the loop iteration does not execute
any action: `pick_action` returns `None` and calling it raises `TypeError`,
a caller-visible failure that aborts the run loop. -/
theorem tick_error_on_empty_actions (v : Vacuum_cleaner) (pc : Percept)
    (h1 : is_clean v.environment = false)
    (h2 : get_environment v.environment v.state = Except.ok pc)
    (h3 : agent_function pc = []) :
    tick v = TickResult.error "TypeError" := by
  unfold tick
  rw [h1, h2]
  simp [h3, select_action, pick_action, pick_go]

/-- Witness for C5 at the concrete reachable input: grid `{0:1, 1:0}`,
position 1. -/
theorem tick_error_on_empty_actions_witness :
    tick { environment := [(0, 1), (1, 0)], state := 1, previous_state := 0, cost := 0, performance := 0 } =
      TickResult.error "TypeError" :=
  tick_error_on_empty_actions
    { environment := [(0, 1), (1, 0)], state := 1, previous_state := 0, cost := 0, performance := 0 }
    { left := none, right := none, centre := 0 } rfl rfl rfl

/-- Claim C6: counterexample.  `update_environment` invoked at position 5 on
the single-cell grid `{0:1}` does not fail: the dict assignment inserts the
new binding `5 ↦ 0`, mutating the grid. -/
theorem update_environment_out_of_range_inserts :
    update_environment [(0, 1)] 5 = [(0, 1), (5, 0)] ∧
    dGet (update_environment [(0, 1)] 5) 5 = some 0 := ⟨rfl, rfl⟩

/-- Claim C6 as amended: on a dense grid, for any position outside `[0, N)`,
sensing fails with a `KeyError` (the centre subscript has no binding), while
`update_environment` does not fail — it inserts the binding `p ↦ 0` at the
end of the dict. -/
theorem out_of_range_sense_fails_clean_inserts (d : Dict) (p : Int)
    (hd : denseGrid d) (hp : p < 0 ∨ (d.length : Int) ≤ p) :
    (∃ e, get_environment d p = Except.error e) ∧
    update_environment d p = d ++ [(p, 0)] := by
  have hkey : ∀ q ∈ d, q.1 ≠ p := by
    intro q hq hqp
    have hb := denseGrid_key_bounds d hd q hq
    omega
  refine ⟨?_, ?_⟩
  · exact get_environment_error_of_centre_none d p (dGet_eq_none_of_not_key d p hkey)
  · exact dSet_append_of_not_key d p 0 hkey

/-- Witness for the amended C6 on the concrete grid `{0:1}` at position 7. -/
theorem out_of_range_sense_fails_clean_inserts_witness :
    (∃ e, get_environment [(0, 1)] 7 = Except.error e) ∧
    update_environment [(0, 1)] 7 = [(0, 1)] ++ [(7, 0)] :=
  out_of_range_sense_fails_clean_inserts [(0, 1)] 7 rfl (Or.inr (by decide))

/-- Claim C7: counterexample.  Executing `suck` decrements
`cumulative_performance` by 1 (the source's `self.performance -= 1`); it does
not increment it by the +1 scoring payoff of §4.2. -/
theorem suck_performance_decrements :
    (suck (Vacuum_cleaner.init [(0, 1)])).performance ≠
      (Vacuum_cleaner.init [(0, 1)]).performance + 1 ∧
    (suck (Vacuum_cleaner.init [(0, 1)])).performance =
      (Vacuum_cleaner.init [(0, 1)]).performance - 1 := by
  constructor
  · decide
  · rfl

/-- Claim C7 as amended: every executed action — `suck` included — increments
`cumulative_cost` by exactly 1 and decrements `cumulative_performance` by
exactly 1; the +1 suck performance payoff of §4.2 appears only in the
candidate score (`get_actions`), never in the executed bookkeeping. -/
theorem action_cost_performance_deltas (v : Vacuum_cleaner) :
    ((suck v).cost = v.cost + 1 ∧ (suck v).performance = v.performance - 1) ∧
    ((move_left v).cost = v.cost + 1 ∧ (move_left v).performance = v.performance - 1) ∧
    ((move_right v).cost = v.cost + 1 ∧ (move_right v).performance = v.performance - 1) :=
  ⟨⟨rfl, rfl⟩, ⟨rfl, rfl⟩, ⟨rfl, rfl⟩⟩

/-- Claim C10: frame effects of the three actions.  `suck` leaves `state`
and `previous_state` unchanged and touches no grid cell other than the one at
the current position; the moves leave the grid unchanged, shift `state` by
∓1/±1 and record the old position in `previous_state`. -/
theorem action_frame_effects (v : Vacuum_cleaner) :
    ((suck v).state = v.state ∧ (suck v).previous_state = v.previous_state ∧
      ∀ k, k ≠ v.state → dGet (suck v).environment k = dGet v.environment k) ∧
    ((move_left v).environment = v.environment ∧ (move_left v).state = v.state - 1 ∧
      (move_left v).previous_state = v.state) ∧
    ((move_right v).environment = v.environment ∧ (move_right v).state = v.state + 1 ∧
      (move_right v).previous_state = v.state) := by
  refine ⟨⟨rfl, rfl, ?_⟩, ⟨rfl, rfl, rfl⟩, ⟨rfl, rfl, rfl⟩⟩
  intro k hk
  exact dGet_dSet_ne v.environment v.state 0 k hk

/-- Witness for C10: sucking at cell 0 of `{0:1, 1:1}` leaves the binding of
cell 1 unchanged. -/
theorem action_frame_effects_witness :
    dGet (suck (Vacuum_cleaner.init [(0, 1), (1, 1)])).environment 1 =
      dGet [(0, 1), (1, 1)] 1 :=
  (action_frame_effects (Vacuum_cleaner.init [(0, 1), (1, 1)])).1.2.2 1 (by decide)

/-- Claim C8: the selection step of the run loop never yields no action on a
non-empty candidate set: with several (distinct-keyed) candidates at most one
is avoided and a non-avoided one is picked, and with a single candidate the
loop calls `pick_action` without an avoidance target, so that candidate is
selected even when it equals the avoidance target. -/
theorem select_action_nonempty_some (v : Vacuum_cleaner) (actions : List (Act × Int))
    (hne : actions ≠ []) (hnd : (actions.map Prod.fst).Nodup) :
    (∃ a, select_action v actions = some a) ∧
    (∀ a s, actions = [(a, s)] → select_action v actions = some a) := by
  constructor
  · match actions, hne, hnd with
    | [q], _, _ =>
      obtain ⟨a, s⟩ := q
      exact ⟨a, by simp [select_action, pick_action, pick_go]⟩
    | (q1 :: q2 :: rest), _, hnd =>
      have hpq : q1.1 ≠ q2.1 := by
        simp only [List.map_cons, List.nodup_cons, List.mem_cons, List.mem_map] at hnd
        intro h
        exact hnd.1 (Or.inl h)
      have hw : ∃ r ∈ (q1 :: q2 :: rest), some r.1 ≠ avoid_action v := by
        cases hav : avoid_action v with
        | none => exact ⟨q1, by simp, by simp⟩
        | some x =>
          by_cases hx : q1.1 = x
          · refine ⟨q2, by simp, ?_⟩
            simp only [ne_eq, Option.some.injEq]
            intro h
            exact hpq (by rw [hx, h])
          · exact ⟨q1, by simp, by simp [hx]⟩
      have hs := pick_action_isSome _ _ hw
      have hlen : (q1 :: q2 :: rest).length > 1 := by simp
      unfold select_action
      rw [if_pos hlen]
      exact Option.isSome_iff_exists.mp hs
  · intro a s heq
    subst heq
    simp [select_action, pick_action, pick_go]

/-- Witness for C8: at position 1 of `{0:0, 1:0}` having arrived from 0 the
avoidance target is `move_left`, yet the single candidate `move_left` is
still selected because the loop drops the avoidance argument for singleton
candidate sets. -/
theorem select_action_nonempty_some_witness :
    select_action
      { environment := [(0, 0), (1, 0)], state := 1, previous_state := 0, cost := 1, performance := -1 }
      [(Act.move_left, -2)] = some Act.move_left :=
  (select_action_nonempty_some
    { environment := [(0, 0), (1, 0)], state := 1, previous_state := 0, cost := 1, performance := -1 }
    [(Act.move_left, -2)] (by decide) (by decide)).2 Act.move_left (-2) rfl

/-- Claim C9: `pick_action` is deterministic — equal candidate lists and
avoidance targets give equal results — and whatever it returns is a
non-avoided candidate whose score strictly exceeds every earlier non-avoided
score (ties therefore go to the first-seen candidate) and is at least every
later non-avoided score. -/
theorem pick_action_deterministic_first_max
    (l l2 : List (Act × Int)) (avoid avoid2 : Option Act) (a : Act) :
    (l = l2 → avoid = avoid2 → pick_action l avoid = pick_action l2 avoid2) ∧
    (pick_action l avoid = some a →
      ∃ s l₁ l₂, l = l₁ ++ (a, s) :: l₂ ∧ some a ≠ avoid ∧
        (∀ p ∈ l₁, some p.1 ≠ avoid → p.2 < s) ∧
        (∀ p ∈ l₂, some p.1 ≠ avoid → p.2 ≤ s)) := by
  constructor
  · intro h1 h2
    rw [h1, h2]
  · intro h
    unfold pick_action at h
    cases hg : pick_go avoid l none with
    | none => rw [hg] at h; simp at h
    | some pr =>
      obtain ⟨b, s⟩ := pr
      rw [hg] at h
      simp only [Option.map_some', Option.some.injEq] at h
      subst h
      exact ⟨s, pick_go_none_spec avoid l b s hg⟩

/-- Witness for C9: with candidates `move_left ↦ -2, move_right ↦ -2,
suck ↦ 0` and avoidance target `move_left`, the pick is `suck`, the first
candidate attaining the maximal non-avoided score. -/
theorem pick_action_deterministic_first_max_witness :
    ∃ s l₁ l₂,
      [(Act.move_left, -2), (Act.move_right, -2), (Act.suck, 0)] = l₁ ++ (Act.suck, s) :: l₂ ∧
      some Act.suck ≠ some Act.move_left ∧
      (∀ p ∈ l₁, some p.1 ≠ some Act.move_left → p.2 < s) ∧
      (∀ p ∈ l₂, some p.1 ≠ some Act.move_left → p.2 ≤ s) :=
  (pick_action_deterministic_first_max
    [(Act.move_left, -2), (Act.move_right, -2), (Act.suck, 0)] []
    (some Act.move_left) none Act.suck).2 rfl
